import Mathlib

/-!
Verification of the contrastive-loss notebooks: the pairwise cosine-similarity
matrix, the NT-Xent loss and the NT-BXent loss, embedded shallowly over `ℝ`.

Floating-point infinities are modelled by the three-valued type `FVal`:
the notebooks write `float("inf")` / `float("-inf")` sentinels into the
similarity matrix and rely on `exp(-inf) = 0` and `sigmoid(inf) = 1`, which
the evaluation maps `FVal.expV` and `FVal.sigmoidV` reproduce exactly.
Fallible library calls (`F.cross_entropy` shape/range checks, tensor indexing
with the caller's pair list) are modelled with `Option`.
-/

namespace ContrastiveLoss

noncomputable section

/-- An embedding vector: one row of the 2-d input tensor `x`. -/
abbrev Vec := List ℝ

/-- A batch of embedding vectors: the 2-d input tensor `x` itself. -/
abbrev Batch := List Vec

/-- Dot product of two vectors (`(x1 * x2).sum(dim)` inside
`F.cosine_similarity`). -/
def dot (x y : Vec) : ℝ := (List.zipWith (· * ·) x y).sum

/-- The default `eps = 1e-8` of `F.cosine_similarity`. -/
def simEps : ℝ := 1 / 100000000

/-- Denominator of `F.cosine_similarity`: `sqrt(clamp_min(|x|².|y|², eps²))`,
the epsilon-floored product of the two vector norms. -/
def simDenom (x y : Vec) : ℝ := Real.sqrt (max (dot x x * dot y y) (simEps * simEps))

/-- Cosine similarity of two vectors as computed by `F.cosine_similarity`. -/
def cosSim (x y : Vec) : ℝ := dot x y / simDenom x y

/-- Entry `(i, j)` of the all-pairs cosine-similarity matrix
`F.cosine_similarity(x[None,:,:], x[:,None,:], dim=-1)`. -/
def simEntry (b : Batch) (i j : ℕ) : ℝ := cosSim (b.getD i []) (b.getD j [])

/-- An IEEE float value as used by the notebooks: finite, `+inf` or `-inf`
(the sentinels written onto the matrix diagonal). -/
inductive FVal where
  | negInf
  | posInf
  | fin (x : ℝ)

/-- Division of a float by the temperature scalar `t` (`xcs / temperature`):
finite values divide, infinities keep or flip their sign with the sign of `t`. -/
def FVal.divT (t : ℝ) : FVal → FVal
  | .negInf => if t < 0 then .posInf else .negInf
  | .posInf => if t < 0 then .negInf else .posInf
  | .fin x => .fin (x / t)

/-- Exponential of a float logit inside softmax cross-entropy:
`exp(-inf) = 0`. (`+inf` logits are never exponentiated on the paths the
claims cover; the value there is irrelevant to every theorem below.) -/
def FVal.expV : FVal → ℝ
  | .negInf => 0
  | .posInf => 0
  | .fin x => Real.exp x

/-- The finite payload of a float (used for the gathered target logit, which
is finite on every path the claims cover). -/
def FVal.toR : FVal → ℝ
  | .negInf => 0
  | .posInf => 0
  | .fin x => x

/-- The logistic sigmoid on finite reals. -/
def sigmoid (z : ℝ) : ℝ := 1 / (1 + Real.exp (-z))

/-- `torch.sigmoid` on a float: saturates cleanly at the infinities,
`sigmoid(-inf) = 0` and `sigmoid(inf) = 1`. -/
def FVal.sigmoidV : FVal → ℝ
  | .negInf => 0
  | .posInf => 1
  | .fin z => sigmoid z

/-- `F.cross_entropy(L, target, reduction="mean")` over an `n × n` logit
matrix: errors (`none`) when the target length mismatches the batch dimension
or a target class index is out of range; otherwise the mean over rows of
`logsumexp(L[i,:]) - L[i, target[i]]`. -/
def crossEntropyMean (n : ℕ) (L : ℕ → ℕ → FVal) (target : List ℕ) : Option ℝ :=
  if target.length = n ∧ ∀ v ∈ target, v < n then
    some ((∑ i ∈ Finset.range n,
      (Real.log (∑ j ∈ Finset.range n, (L i j).expV) - (L i (target.getD i 0)).toR))
        / (n : ℝ))
  else none

/-- The NT-Xent similarity logits: the cosine-similarity matrix with the
diagonal overwritten by `float("-inf")`
(`xcs[torch.eye(x.size(0)).bool()] = float("-inf")`). -/
def xcsXent (b : Batch) (i j : ℕ) : FVal :=
  if i = j then .negInf else .fin (simEntry b i j)

/-- The ground-truth target of `nt_xent_loss` exactly as the code builds it:
`target = torch.arange(8); target[0::2] += 1; target[1::2] -= 1` —
note the hard-coded `8`, independent of the actual batch size. -/
def ntXentTarget : List ℕ :=
  (List.range 8).map fun i => if i % 2 = 0 then i + 1 else i - 1

/-- `nt_xent_loss(x, temperature)` from the notebook: cosine-similarity
matrix, `-inf` diagonal sentinel, hard-coded length-8 target, temperature
scaling, then mean softmax cross-entropy. -/
def ntXentLoss (x : Batch) (t : ℝ) : Option ℝ :=
  crossEntropyMean x.length (fun i j => (xcsXent x i j).divT t) ntXentTarget

/-- The ground-truth target matrix of `nt_bxent_loss`: zeros, then `1.0`
scattered at every caller pair and at every diagonal position
(`pos_indices` concatenated with `arange(n)` pairs). -/
def buildTarget (n : ℕ) (pairs : List (ℕ × ℕ)) (i j : ℕ) : ℝ :=
  if (i, j) ∈ pairs ++ (List.range n).map (fun k => (k, k)) then 1 else 0

/-- Elementwise binary cross-entropy of a probability `p` against a label `y`
(`F.binary_cross_entropy(p, y, reduction="none")`). -/
def bce (p y : ℝ) : ℝ := -(y * Real.log p + (1 - y) * Real.log (1 - p))

/-- The NT-BXent similarity logits: the cosine-similarity matrix with the
diagonal overwritten by `float("inf")`
(`xcs[torch.eye(x.size(0)).bool()] = float("inf")`). -/
def xcsBXent (b : Batch) (i j : ℕ) : FVal :=
  if i = j then .posInf else .fin (simEntry b i j)

/-- Entry `(i, j)` of the elementwise BCE loss matrix of `nt_bxent_loss`:
`F.binary_cross_entropy((xcs / temperature).sigmoid(), target)`. -/
def bxEntry (x : Batch) (pairs : List (ℕ × ℕ)) (t : ℝ) (i j : ℕ) : ℝ :=
  bce (((xcsBXent x i j).divT t).sigmoidV) (buildTarget x.length pairs i j)

open Classical in
/-- `nt_bxent_loss(x, pos_indices, temperature)` from the notebook: target
matrix from the pair list plus the diagonal, `+inf` diagonal sentinel,
sigmoid, elementwise BCE, masked row sums over positives and negatives
(`masked_scatter` followed by `sum(dim=1)`), the float counts
`num_pos = target.sum(dim=1)` and `num_neg = n - num_pos`, and the final
mean. Indexing the target with an out-of-range pair raises (`none`). -/
def ntBXentLoss (x : Batch) (pairs : List (ℕ × ℕ)) (t : ℝ) : Option ℝ :=
  if ∀ p ∈ pairs, p.1 < x.length ∧ p.2 < x.length then
    some ((∑ i ∈ Finset.range x.length,
      ((∑ j ∈ Finset.range x.length,
          if buildTarget x.length pairs i j ≠ 0 then bxEntry x pairs t i j else 0)
         / (∑ j ∈ Finset.range x.length, buildTarget x.length pairs i j)
       + (∑ j ∈ Finset.range x.length,
          if ¬ buildTarget x.length pairs i j ≠ 0 then bxEntry x pairs t i j else 0)
         / ((x.length : ℝ) - ∑ j ∈ Finset.range x.length, buildTarget x.length pairs i j)))
      / (x.length : ℝ))
  else none

/-- Spec-side cyclic pairing rule: `partner(i) = i+1` for even `i`,
`i-1` for odd `i`. -/
def partner (i : ℕ) : ℕ := if i % 2 = 0 then i + 1 else i - 1

/-- Spec-side NT-Xent row loss, following the spec's words: the softmax
cross-entropy `-log( exp(L[i,partner i]) / Σ_j exp(L[i,j]) )` of the
temperature-scaled similarities, where the `-inf` diagonal contributes `0`
to the denominator. -/
def specXentRow (x : Batch) (t : ℝ) (i : ℕ) : ℝ :=
  -Real.log (Real.exp (simEntry x i (partner i) / t) /
     ∑ j ∈ Finset.range x.length, if i = j then 0 else Real.exp (simEntry x i j / t))

/-- Spec-side NT-Xent loss: the arithmetic mean of the row losses. -/
def specXentLoss (x : Batch) (t : ℝ) : ℝ :=
  (∑ i ∈ Finset.range x.length, specXentRow x t i) / (x.length : ℝ)

/-- Spec-side set of positive columns of row `i`: the caller's pairs plus the
implicit diagonal. -/
def posCols (x : Batch) (pairs : List (ℕ × ℕ)) (i : ℕ) : Finset ℕ :=
  (Finset.range x.length).filter fun j => (i, j) ∈ pairs ∨ i = j

/-- Spec-side set of negative columns of row `i`. -/
def negCols (x : Batch) (pairs : List (ℕ × ℕ)) (i : ℕ) : Finset ℕ :=
  (Finset.range x.length).filter fun j => ¬ ((i, j) ∈ pairs ∨ i = j)

/-- Spec-side NT-BXent row loss, following the spec's words: the mean BCE over
positive columns plus the mean BCE over negative columns. -/
def specBXRow (x : Batch) (pairs : List (ℕ × ℕ)) (t : ℝ) (i : ℕ) : ℝ :=
  (∑ j ∈ posCols x pairs i, bxEntry x pairs t i j) / ((posCols x pairs i).card : ℝ)
  + (∑ j ∈ negCols x pairs i, bxEntry x pairs t i j) / ((negCols x pairs i).card : ℝ)

/-- Spec-side NT-BXent loss: the arithmetic mean of the row losses. -/
def specBXLoss (x : Batch) (pairs : List (ℕ × ℕ)) (t : ℝ) : ℝ :=
  (∑ i ∈ Finset.range x.length, specBXRow x pairs t i) / (x.length : ℝ)

/-- A fixed batch of eight 2-d embedding vectors, used to instantiate
theorems at the notebook's batch size. -/
def exBatch8 : Batch :=
  [[1, 0], [0, 1], [1, 1], [1, 2], [2, 1], [3, 1], [1, 3], [2, 3]]

/-- The dot product is commutative. -/
theorem dot_comm (x y : Vec) : dot x y = dot y x := by
  unfold dot
  induction x generalizing y with
  | nil => cases y <;> simp
  | cons a x ih =>
    cases y with
    | nil => simp
    | cons b y => simp [ih y, mul_comm]

/-- A vector of zeros has zero dot product with anything. -/
theorem dot_zero_left (x : Vec) : ∀ y : Vec, (∀ a ∈ x, a = (0 : ℝ)) → dot x y = 0 := by
  induction x with
  | nil => intro y _; cases y <;> simp [dot]
  | cons a x ih =>
    intro y h
    cases y with
    | nil => simp [dot]
    | cons b y =>
      have ha : a = 0 := h a (List.mem_cons_self a x)
      have h2 : ∀ c ∈ x, c = (0 : ℝ) := fun c hc => h c (List.mem_cons_of_mem a hc)
      have := ih y h2
      simp [dot] at this ⊢
      simp [ha, this]

/-- The epsilon of `F.cosine_similarity` is positive. -/
theorem simEps_pos : 0 < simEps := by unfold simEps; norm_num

/-- The floored norm product is strictly positive for every pair of vectors:
the division in `cosSim` is never a division by zero. -/
theorem simDenom_pos (x y : Vec) : 0 < simDenom x y := by
  unfold simDenom
  apply Real.sqrt_pos.mpr
  exact lt_of_lt_of_le (mul_pos simEps_pos simEps_pos) (le_max_right _ _)

/-- C7: the cosine-similarity matrix is symmetric: `M[i][j] = M[j][i]` for
every batch and all indices. -/
theorem simEntry_symm (x : Batch) (i j : ℕ) : simEntry x i j = simEntry x j i := by
  unfold simEntry cosSim simDenom
  rw [dot_comm (x.getD i []) (x.getD j []),
    mul_comm (dot (x.getD i []) (x.getD i [])) (dot (x.getD j []) (x.getD j []))]

/-- C10: for a batch whose `i`-th vector is all-zero, the raw similarity
computation is still well defined: the floored denominator is strictly
positive and every entry of row `i` and column `i` (the diagonal entry
included, taking `j = i`) equals `0`. -/
theorem simEntry_zero_vector (x : Batch) (i : ℕ)
    (h0 : ∀ a ∈ x.getD i [], a = (0 : ℝ)) (j : ℕ) :
    0 < simDenom (x.getD i []) (x.getD j []) ∧
      simEntry x i j = 0 ∧ simEntry x j i = 0 := by
  refine ⟨simDenom_pos _ _, ?_, ?_⟩
  · unfold simEntry cosSim
    rw [dot_zero_left _ _ h0, zero_div]
  · unfold simEntry cosSim
    rw [dot_comm (x.getD j []) (x.getD i []), dot_zero_left _ _ h0, zero_div]

/-- Witness for C10 at the concrete batch `[[0,0],[1,2]]` with the zero
vector in row `0`. -/
theorem simEntry_zero_vector_witness :
    (∀ a ∈ ([[0, 0], [1, 2]] : Batch).getD 0 [], a = (0 : ℝ)) ∧
    (0 < simDenom (([[0, 0], [1, 2]] : Batch).getD 0 [])
        (([[0, 0], [1, 2]] : Batch).getD 1 []) ∧
      simEntry [[0, 0], [1, 2]] 0 1 = 0 ∧ simEntry [[0, 0], [1, 2]] 1 0 = 0) :=
  ⟨by simp, simEntry_zero_vector [[0, 0], [1, 2]] 0 (by simp) 1⟩

/-- C5: for every batch of odd size and every temperature, `nt_xent_loss`
fails (the hard-coded length-8 target can never match an odd batch
dimension, so `F.cross_entropy` raises) rather than computing a loss. -/
theorem ntXentLoss_odd_none (x : Batch) (t : ℝ) (h : Odd x.length) :
    ntXentLoss x t = none := by
  unfold ntXentLoss crossEntropyMean
  rw [if_neg]
  rintro ⟨h8, -⟩
  have hlen : ntXentTarget.length = 8 := by decide
  rw [hlen] at h8
  rw [← h8] at h
  exact (by decide : ¬ Odd 8) h

/-- Witness for C5 at a concrete batch of seven vectors. -/
theorem ntXentLoss_odd_none_witness :
    Odd (List.replicate 7 ([1] : Vec)).length ∧
      ntXentLoss (List.replicate 7 ([1] : Vec)) 1 = none :=
  ⟨by rw [List.length_replicate]; decide,
    ntXentLoss_odd_none (List.replicate 7 ([1] : Vec)) 1
      (by rw [List.length_replicate]; decide)⟩

/-- C1: the target construction of `nt_xent_loss` is hard-coded to batch
size 8. The built target list is exactly the cyclic-pairing rule applied to
`0..7` — and to nothing else — so on the even batch size 4 the call fails
(length-8 target against a 4×4 logit matrix) instead of using the
cyclic-pairing targets of length 4 the claim requires. -/
theorem ntXentTarget_hardcoded :
    ntXentTarget = (List.range 8).map partner ∧
      ntXentLoss [[1, 0], [0, 1], [1, 1], [1, 2]] 1 = none := by
  constructor
  · decide
  · unfold ntXentLoss crossEntropyMean
    rw [if_neg]
    rintro ⟨h8, -⟩
    have hlen : ntXentTarget.length = 8 := by decide
    rw [hlen] at h8
    simp at h8

/-- For in-range row index `i`, the scattered target matrix is the indicator
of `PositivePairSet ∪ {(i,i)}`. -/
theorem buildTarget_eq (n : ℕ) (pairs : List (ℕ × ℕ)) (i j : ℕ) (hi : i < n) :
    buildTarget n pairs i j = if ((i, j) ∈ pairs ∨ i = j) then 1 else 0 := by
  unfold buildTarget
  apply if_congr _ rfl rfl
  rw [List.mem_append, List.mem_map]
  constructor
  · rintro (hmem | ⟨k, -, hkk⟩)
    · exact Or.inl hmem
    · injection hkk with h1 h2
      subst h1
      subst h2
      exact Or.inr rfl
  · rintro (hmem | rfl)
    · exact Or.inl hmem
    · exact Or.inr ⟨i, List.mem_range.mpr hi, rfl⟩

/-- C8: the target matrix of `nt_bxent_loss` satisfies
`T[i][j] = 1 ↔ (i,j) ∈ P ∪ {(i,i)}` for in-range indices, and declaring an
already-declared pair a second time changes neither the target nor the
returned loss. -/
theorem bxTarget_characterization (n : ℕ) (pairs : List (ℕ × ℕ)) (i j : ℕ)
    (hi : i < n) (_hj : j < n)
    (x : Batch) (t : ℝ) (p : ℕ × ℕ) (hp : p ∈ pairs) :
    (buildTarget n pairs i j = 1 ↔ ((i, j) ∈ pairs ∨ i = j)) ∧
      ntBXentLoss x (p :: pairs) t = ntBXentLoss x pairs t := by
  refine ⟨?_, ?_⟩
  · rw [buildTarget_eq n pairs i j hi]
    constructor
    · intro h1
      by_contra hc
      rw [if_neg hc] at h1
      norm_num at h1
    · intro h2
      rw [if_pos h2]
  · have hmem : ∀ q : ℕ × ℕ, (q ∈ p :: pairs) ↔ (q ∈ pairs) := by
      intro q
      constructor
      · intro hq
        rcases List.mem_cons.mp hq with rfl | h
        · exact hp
        · exact h
      · exact fun h => List.mem_cons_of_mem p h
    have hT : buildTarget x.length (p :: pairs) = buildTarget x.length pairs := by
      funext a b
      unfold buildTarget
      apply if_congr _ rfl rfl
      rw [List.mem_append, List.mem_append, hmem]
    have hE : bxEntry x (p :: pairs) = bxEntry x pairs := by
      funext u a b
      unfold bxEntry
      rw [hT]
    have hC : (∀ q ∈ p :: pairs, q.1 < x.length ∧ q.2 < x.length) ↔
        (∀ q ∈ pairs, q.1 < x.length ∧ q.2 < x.length) := by
      constructor
      · exact fun h q hq => h q ((hmem q).mpr hq)
      · exact fun h q hq => h q ((hmem q).mp hq)
    unfold ntBXentLoss
    rw [hT, hE]
    exact if_congr hC rfl rfl

/-- Witness for C8 at a concrete duplicated pair list. -/
theorem bxTarget_characterization_witness :
    (0 < 3 ∧ 1 < 3 ∧ ((0, 1) : ℕ × ℕ) ∈ [((0 : ℕ), (1 : ℕ)), (0, 1)]) ∧
    ((buildTarget 3 [(0, 1), (0, 1)] 0 1 = 1 ↔
        (((0 : ℕ), (1 : ℕ)) ∈ [((0 : ℕ), (1 : ℕ)), (0, 1)] ∨ (0 : ℕ) = 1)) ∧
      ntBXentLoss [[1, 2], [2, 1], [0, 1]] ((0, 1) :: [(0, 1), (0, 1)]) 1 =
        ntBXentLoss [[1, 2], [2, 1], [0, 1]] [(0, 1), (0, 1)] 1) :=
  ⟨⟨by decide, by decide, by decide⟩,
    bxTarget_characterization 3 [(0, 1), (0, 1)] 0 1 (by decide) (by decide)
      [[1, 2], [2, 1], [0, 1]] 1 (0, 1) (by decide)⟩

/-- Counterexample to C4: at the negative temperature `-1`, both losses
return a scalar instead of failing — neither function validates its
temperature argument. -/
theorem negTemperature_returns_value :
    (ntXentLoss exBatch8 (-1)).isSome = true ∧
      (ntBXentLoss [[1, 0], [0, 1]] [(0, 1)] (-1)).isSome = true := by
  constructor
  · unfold ntXentLoss crossEntropyMean
    rw [if_pos ⟨by decide, by decide⟩]
    rfl
  · unfold ntBXentLoss
    rw [if_pos (by decide)]
    rfl

/-- C4 amended: neither loss checks the temperature. For every negative
temperature, `nt_xent_loss` (on its only supported batch size, 8) and
`nt_bxent_loss` (on in-range pairs) both return a scalar. -/
theorem temperature_never_validated (x : Batch) (pairs : List (ℕ × ℕ)) (t : ℝ)
    (hx : x.length = 8) (_ht : t < 0)
    (hin : ∀ p ∈ pairs, p.1 < x.length ∧ p.2 < x.length) :
    (ntXentLoss x t).isSome = true ∧ (ntBXentLoss x pairs t).isSome = true := by
  constructor
  · unfold ntXentLoss crossEntropyMean
    rw [hx]
    rw [if_pos ⟨by decide, by decide⟩]
    rfl
  · unfold ntBXentLoss
    rw [if_pos hin]
    rfl

/-- Witness for the amended C4 at temperature `-1`. -/
theorem temperature_never_validated_witness :
    (exBatch8.length = 8 ∧ (-1 : ℝ) < 0 ∧
      (∀ p ∈ [((0 : ℕ), (1 : ℕ))], p.1 < exBatch8.length ∧ p.2 < exBatch8.length)) ∧
    ((ntXentLoss exBatch8 (-1)).isSome = true ∧
      (ntBXentLoss exBatch8 [(0, 1)] (-1)).isSome = true) :=
  ⟨⟨by decide, by norm_num, by decide⟩,
    temperature_never_validated exBatch8 [(0, 1)] (-1) (by decide) (by norm_num)
      (by decide)⟩

/-- Counterexample to C6: with `N = 2` and both off-diagonal entries declared
positive, every row has zero negatives, yet `nt_bxent_loss` still returns a
value (dividing by the zero negative count) instead of failing. -/
theorem bxAllPositive_returns_value :
    (ntBXentLoss [[1, 0], [0, 1]] [(0, 1), (1, 0)] 1).isSome = true := by
  unfold ntBXentLoss
  rw [if_pos (by decide)]
  rfl

/-- C6 amended: when the pair set declares every off-diagonal entry positive,
every row's negative-column set is empty (so the row loss divides by zero),
and `nt_bxent_loss` performs no check and still returns a value. -/
theorem bxAllPositive_no_check (x : Batch) (pairs : List (ℕ × ℕ)) (t : ℝ)
    (hin : ∀ p ∈ pairs, p.1 < x.length ∧ p.2 < x.length)
    (hall : ∀ i < x.length, ∀ j < x.length, i = j ∨ (i, j) ∈ pairs) :
    (∀ i < x.length, negCols x pairs i = ∅) ∧
      (ntBXentLoss x pairs t).isSome = true := by
  constructor
  · intro i hi
    unfold negCols
    apply Finset.filter_eq_empty_iff.mpr
    intro j hj
    rw [Finset.mem_range] at hj
    intro hc
    rcases hall i hi j hj with hij | hmem
    · exact hc (Or.inr hij)
    · exact hc (Or.inl hmem)
  · unfold ntBXentLoss
    rw [if_pos hin]
    rfl

/-- Witness for the amended C6 at the concrete all-positive configuration. -/
theorem bxAllPositive_no_check_witness :
    ((∀ p ∈ [((0 : ℕ), (1 : ℕ)), (1, 0)],
        p.1 < ([[1, 0], [0, 1]] : Batch).length ∧
        p.2 < ([[1, 0], [0, 1]] : Batch).length) ∧
      (∀ i < ([[1, 0], [0, 1]] : Batch).length,
        ∀ j < ([[1, 0], [0, 1]] : Batch).length,
          i = j ∨ (i, j) ∈ [((0 : ℕ), (1 : ℕ)), (1, 0)])) ∧
    ((∀ i < ([[1, 0], [0, 1]] : Batch).length,
        negCols [[1, 0], [0, 1]] [(0, 1), (1, 0)] i = ∅) ∧
      (ntBXentLoss [[1, 0], [0, 1]] [(0, 1), (1, 0)] 2).isSome = true) :=
  ⟨⟨by decide, by decide⟩,
    bxAllPositive_no_check [[1, 0], [0, 1]] [(0, 1), (1, 0)] 2 (by decide)
      (by decide)⟩

/-- The cyclic partner of an index is never the index itself. -/
theorem partner_ne (i : ℕ) : partner i ≠ i := by
  unfold partner
  split <;> omega

/-- The cyclic partner stays in range for the hard-coded batch size 8. -/
theorem partner_lt_8 : ∀ i < 8, partner i < 8 := by decide

/-- The hard-coded target list evaluates to the cyclic partner on `0..7`. -/
theorem ntXentTarget_getD : ∀ i < 8, ntXentTarget.getD i 0 = partner i := by decide

/-- Counterexample to C3 as stated: on the even batch size 6 the function
fails (hard-coded length-8 target) instead of returning the claimed mean. -/
theorem ntXentLoss_even_six_none :
    ntXentLoss [[1, 0], [0, 1], [1, 1], [1, 2], [2, 1], [3, 1]] 1 = none := by
  unfold ntXentLoss crossEntropyMean
  rw [if_neg]
  rintro ⟨h8, -⟩
  have hlen : ntXentTarget.length = 8 := by decide
  rw [hlen] at h8
  simp at h8

/-- C3 amended: for every batch of size 8 (the only size the hard-coded
target supports) and every positive temperature, `nt_xent_loss` returns the
arithmetic mean over rows of the softmax cross-entropy
`-log( exp(L[i,partner i]) / Σ_j exp(L[i,j]) )` of the temperature-scaled
similarity logits, where the `-inf` diagonal sentinel contributes `0` to the
denominator sum. -/
theorem ntXentLoss_eq_spec (x : Batch) (t : ℝ) (hN : x.length = 8) (ht : 0 < t) :
    ntXentLoss x t = some (specXentLoss x t) := by
  have hnlt : ¬ t < 0 := not_lt.mpr ht.le
  unfold ntXentLoss crossEntropyMean specXentLoss specXentRow
  rw [hN]
  rw [if_pos ⟨by decide, by decide⟩]
  congr 1
  congr 1
  apply Finset.sum_congr rfl
  intro i hi
  rw [Finset.mem_range] at hi
  have hgetD : ntXentTarget.getD i 0 = partner i := ntXentTarget_getD i hi
  rw [hgetD]
  have hL : ∀ j, ((xcsXent x i j).divT t).expV
      = if i = j then 0 else Real.exp (simEntry x i j / t) := by
    intro j
    unfold xcsXent
    by_cases hij : i = j
    · rw [if_pos hij, if_pos hij]
      show (FVal.divT t .negInf).expV = 0
      simp only [FVal.divT]
      rw [if_neg hnlt]
      rfl
    · rw [if_neg hij, if_neg hij]
      rfl
  rw [Finset.sum_congr rfl fun j _ => hL j]
  have htgt : ((xcsXent x i (partner i)).divT t).toR = simEntry x i (partner i) / t := by
    unfold xcsXent
    rw [if_neg fun h => partner_ne i h.symm]
    rfl
  rw [htgt]
  have hS : 0 < ∑ j ∈ Finset.range 8,
      (if i = j then 0 else Real.exp (simEntry x i j / t)) := by
    apply Finset.sum_pos'
    · intro j _
      by_cases hij : i = j
      · rw [if_pos hij]
      · rw [if_neg hij]
        positivity
    · refine ⟨partner i, Finset.mem_range.mpr (partner_lt_8 i hi), ?_⟩
      rw [if_neg fun h => partner_ne i h.symm]
      positivity
  rw [Real.log_div (Real.exp_ne_zero _) (ne_of_gt hS), Real.log_exp]
  ring

/-- Witness for the amended C3 at the fixed batch of eight vectors. -/
theorem ntXentLoss_eq_spec_witness :
    (exBatch8.length = 8 ∧ (0 : ℝ) < 1) ∧
      ntXentLoss exBatch8 1 = some (specXentLoss exBatch8 1) :=
  ⟨⟨by decide, by norm_num⟩, ntXentLoss_eq_spec exBatch8 1 (by decide) (by norm_num)⟩

/-- C2: `nt_bxent_loss` returns the arithmetic mean over rows of
`(Σ_{j positive} bce[i,j]) / num_pos_i + (Σ_{j negative} bce[i,j]) / num_neg_i`
— the masked-scatter row sums of the code equal the spec's filtered sums, the
float count `target.sum(dim=1)` equals the positive-column cardinality,
`N - num_pos` equals the negative-column cardinality — and the `+inf`
diagonal sentinel makes each diagonal BCE term exactly `0`. -/
theorem ntBXentLoss_eq_spec (x : Batch) (pairs : List (ℕ × ℕ)) (t : ℝ)
    (_hN : 2 ≤ x.length)
    (hin : ∀ p ∈ pairs, p.1 < x.length ∧ p.2 < x.length)
    (_hneg : ∀ i < x.length, (negCols x pairs i).Nonempty)
    (ht : 0 < t) :
    ntBXentLoss x pairs t = some (specBXLoss x pairs t) ∧
      ∀ i < x.length, bxEntry x pairs t i i = 0 := by
  constructor
  · unfold ntBXentLoss specBXLoss specBXRow
    rw [if_pos hin]
    congr 1
    congr 1
    apply Finset.sum_congr rfl
    intro i hi
    rw [Finset.mem_range] at hi
    have hT : ∀ j, buildTarget x.length pairs i j
        = if ((i, j) ∈ pairs ∨ i = j) then 1 else 0 :=
      fun j => buildTarget_eq x.length pairs i j hi
    have hTne : ∀ j, (buildTarget x.length pairs i j ≠ 0)
        ↔ ((i, j) ∈ pairs ∨ i = j) := by
      intro j
      rw [hT j]
      constructor
      · intro hne
        by_contra hc
        rw [if_neg hc] at hne
        exact hne rfl
      · intro hc
        rw [if_pos hc]
        norm_num
    have hpos : (∑ j ∈ Finset.range x.length,
        if buildTarget x.length pairs i j ≠ 0 then bxEntry x pairs t i j else 0)
        = ∑ j ∈ posCols x pairs i, bxEntry x pairs t i j := by
      unfold posCols
      rw [Finset.sum_filter]
      exact Finset.sum_congr rfl fun j _ => if_congr (hTne j) rfl rfl
    have hnegsum : (∑ j ∈ Finset.range x.length,
        if ¬ buildTarget x.length pairs i j ≠ 0 then bxEntry x pairs t i j else 0)
        = ∑ j ∈ negCols x pairs i, bxEntry x pairs t i j := by
      unfold negCols
      rw [Finset.sum_filter]
      exact Finset.sum_congr rfl fun j _ => if_congr (not_congr (hTne j)) rfl rfl
    have hnum : (∑ j ∈ Finset.range x.length, buildTarget x.length pairs i j)
        = ((posCols x pairs i).card : ℝ) := by
      unfold posCols
      rw [← Finset.sum_boole]
      exact Finset.sum_congr rfl fun j _ => hT j
    have hcards : ((x.length : ℝ) - ((posCols x pairs i).card : ℝ))
        = ((negCols x pairs i).card : ℝ) := by
      have hc := Finset.filter_card_add_filter_neg_card_eq_card
        (s := Finset.range x.length) (p := fun j => (i, j) ∈ pairs ∨ i = j)
      rw [Finset.card_range] at hc
      have hre : ((posCols x pairs i).card : ℝ) + ((negCols x pairs i).card : ℝ)
          = (x.length : ℝ) := by
        unfold posCols negCols
        exact_mod_cast hc
      linarith
    rw [hpos, hnegsum, hnum, hcards]
  · intro i hi
    unfold bxEntry
    have h1 : buildTarget x.length pairs i i = 1 := by
      rw [buildTarget_eq x.length pairs i i hi, if_pos (Or.inr rfl)]
    rw [h1]
    unfold xcsBXent
    rw [if_pos rfl]
    show bce ((FVal.divT t .posInf).sigmoidV) 1 = 0
    simp only [FVal.divT]
    rw [if_neg (not_lt.mpr ht.le)]
    show bce 1 1 = 0
    unfold bce
    rw [Real.log_one]
    norm_num

/-- Witness for C2 at a concrete three-vector batch with one declared pair. -/
theorem ntBXentLoss_eq_spec_witness :
    (2 ≤ ([[1, 0], [0, 1], [1, 1]] : Batch).length ∧
      (∀ p ∈ [((0 : ℕ), (1 : ℕ))],
        p.1 < ([[1, 0], [0, 1], [1, 1]] : Batch).length ∧
        p.2 < ([[1, 0], [0, 1], [1, 1]] : Batch).length) ∧
      (∀ i < ([[1, 0], [0, 1], [1, 1]] : Batch).length,
        (negCols [[1, 0], [0, 1], [1, 1]] [(0, 1)] i).Nonempty) ∧
      (0 : ℝ) < 1) ∧
    (ntBXentLoss [[1, 0], [0, 1], [1, 1]] [(0, 1)] 1 =
        some (specBXLoss [[1, 0], [0, 1], [1, 1]] [(0, 1)] 1) ∧
      ∀ i < ([[1, 0], [0, 1], [1, 1]] : Batch).length,
        bxEntry [[1, 0], [0, 1], [1, 1]] [(0, 1)] 1 i i = 0) :=
  ⟨⟨by decide, by decide, by decide, by norm_num⟩,
    ntBXentLoss_eq_spec [[1, 0], [0, 1], [1, 1]] [(0, 1)] 1 (by decide) (by decide)
      (by decide) (by norm_num)⟩

end

end ContrastiveLoss
